import Mathlib

/-!
Verification of the sheet-to-JSON ETL pipeline (scripts/fetch-sheets).

This file gives a shallow embedding of the pipeline's pure core:
the sheet fetcher's redirect handling, Google-Drive id extraction,
content-type driven extension inference, sub-item extraction, the
multi-sheet item merger, the image-harvest filename map and record
rewrite, and the sponsorship-plan builder.  Records parsed from CSV
are modelled as total functions from column key to cell value (a
missing key reads as the empty string, matching the JS pattern of
falsy lookups on plain objects), and grid-shaped sheets as lists of
cell lists addressed positionally (column keys of a parsed CSV are
in source column order and shared by every row of a tab).  JS plain
objects used as string-keyed maps are modelled as association lists
with insert-or-overwrite-in-place semantics, preserving insertion
order of keys, which is the iteration order of string keys that are
not array indices; the slugs and item codes appearing in the claims
are of that kind.
-/

namespace CFS

/-- JS string-or fallback: a nonempty string is truthy, so this is the
value of the expression a or-else b on strings. -/
def jsOr (a b : String) : String := if a = "" then b else a

/-- The character set removed by the JS string trim (ASCII whitespace,
no-break space, BOM and the line separators). -/
def jsWhitespace (c : Char) : Bool :=
  c == ' ' || c == '\t' || c == '\n' || c == '\r' || c == '\x0b' || c == '\x0c'
    || c == '\u00a0' || c == '\ufeff' || c == '\u2028' || c == '\u2029'

/-- JS trim: strip leading and trailing whitespace. -/
def jsTrim (s : String) : String :=
  String.mk (((s.data.dropWhile jsWhitespace).reverse.dropWhile jsWhitespace).reverse)

/-- JS toLowerCase restricted to the ASCII range, which is all the
case mapping the tier slugs in this pipeline can exercise. -/
def jsToLower (s : String) : String := String.mk (s.data.map Char.toLower)

/-- JS startsWith. -/
def jsStartsWith (s p : String) : Bool := p.data.isPrefixOf s.data

/-- JS endsWith. -/
def jsEndsWith (s p : String) : Bool := p.data.isSuffixOf s.data

/-- A parsed CSV record: column key to (trimmed) cell value, empty
string for an absent key. -/
def Row : Type := String → String

/-- The full set of fetched tabs: tab name to parsed record list;
none models an unconfigured/missing tab. -/
def Sheets : Type := String → Option (List Row)

/-- JS object insert: overwrite in place when the key exists, else
append at the end (string-key iteration order of JS objects). -/
def objInsert {α : Type} (k : String) (v : α) (l : List (String × α)) : List (String × α) :=
  if l.any (fun p => p.1 == k) then l.map (fun p => if p.1 = k then (k, v) else p)
  else l ++ [(k, v)]

/-! ## Sheet fetcher (fetchCsv) -/

/-- One HTTP response in the chain a fetch will observe. -/
structure HttpResponse where
  statusCode : Nat
  location : Option String
  body : String
deriving DecidableEq

/-- The failure modes of fetchCsv. -/
inductive FetchError : Type where
  /-- "Too many redirects (...). Possible redirect loop." -/
  | tooManyRedirects : FetchError
  /-- "Invalid or insecure redirect URL" (missing location or not https). -/
  | invalidRedirect : FetchError
  /-- "HTTP status: message" for a non-redirect, non-200 status. -/
  | httpError (status : Nat) : FetchError
  /-- socket-level failure; models running out of responses. -/
  | networkError : FetchError
deriving DecidableEq

def MAX_REDIRECTS : Nat := 5

/-- fetchCsv from the script: the chain argument lists the successive
responses the network yields, one per hop.  The hop counter is checked
against MAX_REDIRECTS on entry, before the request is issued. -/
def fetchCsv : List HttpResponse → Nat → Except FetchError String
  | chain, redirectCount =>
    if redirectCount > MAX_REDIRECTS then .error .tooManyRedirects
    else
      match chain with
      | [] => .error .networkError
      | r :: rest =>
        if r.statusCode = 307 ∨ r.statusCode = 301 then
          match r.location with
          | none => .error .invalidRedirect
          | some loc =>
            if jsStartsWith loc "https://" then fetchCsv rest (redirectCount + 1)
            else .error .invalidRedirect
        else if r.statusCode = 200 then .ok r.body
        else .error (.httpError r.statusCode)

/-! ## Google-Drive id extraction (extractGoogleDriveId) -/

/-- Character class of the regex: letters, digits, underscore, hyphen. -/
def isDriveIdChar (c : Char) : Bool :=
  (('a' ≤ c && c ≤ 'z') || ('A' ≤ c && c ≤ 'Z') || ('0' ≤ c && c ≤ '9')
    || c == '_' || c == '-')

/-- Attempt of the drive-id regex at the current position: the literal
slash-d-slash followed by a nonempty greedy run of id characters. -/
def driveIdHere (l : List Char) : Option (List Char) :=
  match l with
  | '/' :: 'd' :: '/' :: rest =>
    if (rest.takeWhile isDriveIdChar).isEmpty then none
    else some (rest.takeWhile isDriveIdChar)
  | _ => none

/-- Left-to-right regex scan: first position where the pattern matches. -/
def findDriveId : List Char → Option (List Char)
  | [] => none
  | c :: cs =>
    match driveIdHere (c :: cs) with
    | some run => some run
    | none => findDriveId cs

/-- extractGoogleDriveId from the script: null on a falsy (empty) url,
else the first capture of the drive-id pattern. -/
def extractGoogleDriveId (url : String) : Option String :=
  if url = "" then none
  else (findDriveId url.data).map (fun cs => String.mk cs)

/-! ## Extension inference (getExtensionFromContentType) -/

/-- The mimeToExt table of the script, in source order. -/
def mimeToExt : List (String × String) :=
  [("image/jpeg", ".jpg"), ("image/jpg", ".jpg"), ("image/png", ".png"),
   ("image/gif", ".gif"), ("image/webp", ".webp"), ("image/svg+xml", ".svg")]

/-- getExtensionFromContentType: table lookup, defaulting to .jpg for a
missing or unrecognized content type. -/
def getExtensionFromContentType (contentType : Option String) : String :=
  match contentType with
  | none => ".jpg"
  | some ct => (mimeToExt.lookup ct).getD ".jpg"

/-! ## Sub-item extraction (extractSubItems) -/

def MAX_SUB_ITEMS : Nat := 50

def subKeyZh (i : Nat) : String := "子項目" ++ toString i
def subKeyEn (i : Nat) : String := "sub projects " ++ toString i
def subKeyPrice (i : Nat) : String := "子項目" ++ toString i ++ "價錢"
def subKeyImage (i : Nat) : String := "子項目" ++ toString i ++ "圖片連結"
def subKeyImgDescZh (i : Nat) : String := "子項目" ++ toString i ++ "圖片 敘述"
def subKeyImgDescEn (i : Nat) : String := "子項目" ++ toString i ++ "圖片 description"

structure SubItem where
  name_zh : String
  name_en : String
  price : String
  image : String
  image_description_zh : String
  image_description_en : String
deriving DecidableEq

/-- The sub-item record pushed for a present index. -/
def mkSubItem (row : Row) (i : Nat) : SubItem :=
  { name_zh := row (subKeyZh i)
  , name_en := row (subKeyEn i)
  , price := row (subKeyPrice i)
  , image := (extractGoogleDriveId (row (subKeyImage i))).getD ""
  , image_description_zh := row (subKeyImgDescZh i)
  , image_description_en := row (subKeyImgDescEn i) }

/-- The while loop of extractSubItems, from a given index.  Returns the
collected sub-items and whether the truncation warning fires (the loop
left because the index passed MAX_SUB_ITEMS, not via the break).  The
push inside the loop is guarded by the exact negation of the break
condition, so it always happens when the break does not. -/
def extractSubItemsFrom (row : Row) (index : Nat) : List SubItem × Bool :=
  if index ≤ MAX_SUB_ITEMS then
    if row (subKeyZh index) = "" ∧ row (subKeyEn index) = "" then ([], false)
    else
      let rest := extractSubItemsFrom row (index + 1)
      (mkSubItem row index :: rest.1, rest.2)
  else ([], true)
termination_by MAX_SUB_ITEMS + 1 - index

/-- extractSubItems from the script (list of sub-items, warning flag). -/
def extractSubItems (row : Row) : List SubItem × Bool :=
  extractSubItemsFrom row 1

/-! ## Item merger (mergeSheetData) -/

structure Item where
  name : String
  quantity : String
  global_description_zh : String
  global_description_en : String
  talent_recruitment_zh : String
  talent_recruitment_en : String
  brand_exposure_zh : String
  brand_exposure_en : String
  product_promotion_zh : String
  product_promotion_en : String
  image : String
  image_description_zh : String
  image_description_en : String
  price : String
  deadline : String
  talent_recruitment_order : Int
  brand_exposure_order : Int
  product_promotion_order : Int
  sub : List SubItem
deriving DecidableEq

/-- findItemInSheet: find the satellite row whose item-code column
equals the given id.  The source also compares against the id coerced
to a string, which is the id itself here since codes are cell text. -/
def findItemInSheet (sheets : Sheets) (sheetName : String) (itemId : String) : Option Row :=
  match sheets sheetName with
  | none => none
  | some sheet => sheet.find? (fun row => row "編號" == itemId)

/-- Optional-chain field read with empty-string fallback. -/
def optField (r : Option Row) (k : String) : String :=
  match r with
  | some row => row k
  | none => ""

/-- Decimal core of JS parseInt: leading whitespace, optional sign,
then a greedy digit run; no digits parses to NaN (none here).  The
auto-radix hex form does not occur in the sort-order cells this is
applied to and is not modelled. -/
def parseIntJS (s : String) : Option Int :=
  let l := s.data.dropWhile (fun c => c == ' ' || c == '\t' || c == '\n' || c == '\r')
  let signed : Int × List Char :=
    match l with
    | '-' :: rest => (-1, rest)
    | '+' :: rest => (1, rest)
    | _ => (1, l)
  let ds := signed.2.takeWhile Char.isDigit
  if ds.isEmpty then none
  else some (signed.1 * (ds.foldl (fun a c => a * 10 + (c.toNat - '0'.toNat)) 0 : Nat))

/-- parseInt(x or-else "0") or-else 0, the lenient order parse. -/
def parseOrder (s : String) : Int :=
  (parseIntJS (jsOr s "0")).getD 0

/-- The item record assembled for one primary-tab row. -/
def buildItem (sheets : Sheets) (itemRow : Row) : Item :=
  let itemId := itemRow "編號"
  let globalDesc := findItemInSheet sheets "global_description" itemId
  let talentRec := findItemInSheet sheets "talent_recruitment" itemId
  let brandExp := findItemInSheet sheets "brand_exposure" itemId
  let productProm := findItemInSheet sheets "product_promotion" itemId
  { name := jsOr (itemRow "項目") (itemRow "項目名稱")
  , quantity := itemRow "數量"
  , global_description_zh := optField globalDesc "文案"
  , global_description_en := optField globalDesc "description"
  , talent_recruitment_zh := optField talentRec "文案"
  , talent_recruitment_en := optField talentRec "description"
  , brand_exposure_zh := optField brandExp "文案"
  , brand_exposure_en := optField brandExp "description"
  , product_promotion_zh := optField productProm "文案"
  , product_promotion_en := optField productProm "description"
  , image := (extractGoogleDriveId (itemRow "圖片連結")).getD ""
  , image_description_zh := itemRow "圖片 敘述"
  , image_description_en := itemRow "圖片 description"
  , price := itemRow "價錢（這欄與贊助分級和子項目是互斥關係）"
  , deadline := optField globalDesc "截止時間"
  , talent_recruitment_order := parseOrder (optField talentRec "排序")
  , brand_exposure_order := parseOrder (optField brandExp "排序")
  , product_promotion_order := parseOrder (optField productProm "排序")
  , sub := (extractSubItems itemRow).1 }

/-- One step of the forEach of mergeSheetData: a row with an empty
item code is skipped, any other row inserts into the items object
keyed by its code. -/
def mergeStep (sheets : Sheets) (acc : List (String × Item)) (itemRow : Row) :
    List (String × Item) :=
  if itemRow "編號" = "" then acc
  else objInsert (itemRow "編號") (buildItem sheets itemRow) acc

/-- The forEach accumulation of mergeSheetData over the primary rows. -/
def mergeItemsList (sheets : Sheets) (rows : List Row) : List (String × Item) :=
  rows.foldl (mergeStep sheets) []

/-- mergeSheetData: fails when the items tab is absent or empty. -/
def mergeSheetData (sheets : Sheets) : Except String (List (String × Item)) :=
  match sheets "items" with
  | none => .error "Items sheet is empty or not found"
  | some itemsSheet =>
    if itemsSheet.isEmpty then .error "Items sheet is empty or not found"
    else .ok (mergeItemsList sheets itemsSheet)

/-! ## Image harvest (downloadAllImages) -/

/-- Insertion-ordered set insert, as a JS Set behaves under add. -/
def setInsert (s : List String) (x : String) : List String :=
  if s.contains x then s else s ++ [x]

/-- The unique image ids collected across all items and sub-items,
in first-occurrence order; falsy (empty) references are skipped. -/
def collectImageIds (itemsData : List (String × Item)) : List String :=
  itemsData.foldl (fun acc p =>
    let acc1 := if p.2.image ≠ "" then setInsert acc p.2.image else acc
    p.2.sub.foldl (fun a s => if s.image ≠ "" then setInsert a s.image else a) acc1) []

/-- The network oracle for image downloads: none is a failed download,
some ct a success whose response declared content type ct (itself
optional, as the header may be absent). -/
def ImgNet : Type := String → Option (Option String)

/-- The id-to-filename map built by the download loop: a successful
download of id stores basename(outputPath + ext) = id + ext; a failed
one is logged and stores nothing.  The ids reaching this map are
regex-extracted drive ids, which contain no path separator, so the
basename is the extended id itself. -/
def buildImageMap (itemsData : List (String × Item)) (net : ImgNet) : List (String × String) :=
  (collectImageIds itemsData).foldl (fun m imageId =>
    match net imageId with
    | some ct => objInsert imageId (imageId ++ getExtensionFromContentType ct) m
    | none => m) []

/-- The in-place rewrite of one image reference: only a truthy
reference with a truthy map entry is replaced by the filename. -/
def resolveRef (m : List (String × String)) (img : String) : String :=
  if img = "" then img
  else
    match m.lookup img with
    | some fn => if fn = "" then img else fn
    | none => img

/-- The rewrite pass of downloadAllImages over one item. -/
def rewriteItem (m : List (String × String)) (it : Item) : Item :=
  { it with image := resolveRef m it.image
          , sub := it.sub.map (fun s => { s with image := resolveRef m s.image }) }

/-- downloadAllImages without its filesystem side effects: builds the
id-to-filename map from the oracle and rewrites every record. -/
def downloadAllImages (itemsData : List (String × Item)) (net : ImgNet) : List (String × Item) :=
  let m := buildImageMap itemsData net
  itemsData.map (fun p => (p.1, rewriteItem m p.2))

/-- All image references of the catalog, in record order (the item
reference first, then its sub-item references). -/
def imageRefs : List (String × Item) → List String
  | [] => []
  | p :: rest => p.2.image :: (p.2.sub.map SubItem.image ++ imageRefs rest)

/-! ## Plan builder (processPlanData) -/

structure Benefit where
  item_id : String
  item_name : String
  quantity : String
deriving DecidableEq

structure Plan where
  id : String
  name_zh : String
  name_en : String
  price : String
  order : Nat
  benefits : List Benefit
deriving DecidableEq

structure PlanTier where
  index : Nat
  name_zh : String
  id : String
  price : String
deriving DecidableEq

/-- Header scan: columns from index 2 whose cell has nonblank text
become tiers, keeping the column index; the id is the lowercased
trimmed name (the precomputed tier id used for unmapped names). -/
def planTiersOf (headerRow : List String) : List PlanTier :=
  (List.range headerRow.length).filterMap (fun i =>
    if 2 ≤ i then
      let tierName := headerRow.getD i ""
      if tierName ≠ "" ∧ jsTrim tierName ≠ "" then
        some { index := i, name_zh := jsTrim tierName, id := jsToLower (jsTrim tierName), price := "" }
      else none
    else none)

/-- The fixed bilingual name/slug table for the four known tiers. -/
def tierNameMap (zh : String) : Option (String × String) :=
  if zh = "領航級" then some ("Navigator Tier", "navigator")
  else if zh = "深耕級" then some ("Deep Cultivation Tier", "deep_cultivation")
  else if zh = "前瞻級" then some ("Visionary Tier", "visionary")
  else if zh = "新芽級" then some ("New Sprout Tier", "new_sprout")
  else none

/-- nameMap lookup with the fallback to the raw name and its slug. -/
def mappedOf (t : PlanTier) : String × String :=
  (tierNameMap t.name_zh).getD (t.name_zh, t.id)

/-- One tier's plan creation: insert under the mapped slug. -/
def initStep (acc : List (String × Plan)) (st : Nat × PlanTier) : List (String × Plan) :=
  objInsert (mappedOf st.2).2
    { id := (mappedOf st.2).2, name_zh := st.2.name_zh, name_en := (mappedOf st.2).1
    , price := st.2.price, order := st.1 + 1, benefits := [] } acc

/-- The plans object before any benefit row is processed. -/
def initPlans (tiers : List PlanTier) : List (String × Plan) :=
  tiers.enum.foldl initStep []

/-- One item's contribution to the name-to-id mapping: an item with a
truthy display name maps that name to its code. -/
def nameStep (acc : List (String × String)) (p : String × Item) : List (String × String) :=
  if p.2.name ≠ "" then objInsert p.2.name p.1 acc else acc

/-- The name-to-id mapping built from the items object, in key order. -/
def itemNameToId (itemsData : List (String × Item)) : List (String × String) :=
  itemsData.foldl nameStep []

/-- The trimmed lead-column text of a benefit row. -/
def leadName (row : List String) : String := jsTrim (row.getD 0 "")

/-- JS line terminators, which the dot of a regex does not match. -/
def isJsLineTerminator (c : Char) : Bool :=
  c == '\n' || c == '\r' || c == '\u2028' || c == '\u2029'

/-- The category-header regex: anchored alternation of the three fixed
labels and any dot-run ending in the exposure suffix. -/
def matchesCategoryPattern (s : String) : Bool :=
  s == "年會現場" || s == "Logo曝光" || s == "網路宣傳" ||
    (jsEndsWith s "曝光" && !((s.dropRight 2).data.any isJsLineTerminator))

/-- Whether a benefit row survives both skip checks: a falsy lead is
skipped, and a lead that is no known item name yet matches the
category pattern is skipped as a section header. -/
def rowKept (nameMap : List (String × String)) (row : List String) : Bool :=
  let itemName := leadName row
  if itemName = "" then false
  else !((nameMap.lookup itemName).isNone && matchesCategoryPattern itemName)

/-- Append a benefit to the plan stored under the given key. -/
def pushBenefit (pid : String) (b : Benefit) (plans : List (String × Plan)) : List (String × Plan) :=
  plans.map (fun p =>
    if p.1 = pid then (p.1, { p.2 with benefits := p.2.benefits ++ [b] }) else p)

/-- One tier's benefit push for a kept row: the benefit goes to the
plan whose key sits at the tier's position in the key order of the
plans object; an out-of-range position reads an undefined key and the
guarded push does nothing. -/
def tierStep (row : List String) (itemId itemName : String)
    (acc : List (String × Plan)) (jt : Nat × PlanTier) : List (String × Plan) :=
  match (acc.map Prod.fst)[jt.1]? with
  | some pid =>
    pushBenefit pid
      { item_id := itemId, item_name := itemName
      , quantity := jsTrim (row.getD jt.2.index "") } acc
  | none => acc

/-- One benefit row: after the skip checks, each tier contributes one
benefit (an empty cell contributes an empty quantity). -/
def addRowBenefits (tiers : List PlanTier) (nameMap : List (String × String))
    (plans : List (String × Plan)) (row : List String) : List (String × Plan) :=
  if rowKept nameMap row then
    tiers.enum.foldl
      (tierStep row ((nameMap.lookup (leadName row)).getD "") (leadName row)) plans
  else plans

/-- processPlanData: header row, price row, then benefit rows.  A
sheet with a header but no price row throws in the source as soon as
the tier loop reads the keys of the undefined price row, and returns
the empty plans object when there is no tier to read them. -/
def processPlanData (planSheet : List (List String)) (itemsData : List (String × Item)) :
    Except String (List (String × Plan)) :=
  match planSheet with
  | [] => .error "Plan sheet is empty or not found"
  | headerRow :: rest =>
    let nameMap := itemNameToId itemsData
    let tiers0 := planTiersOf headerRow
    match rest with
    | [] =>
      if tiers0.isEmpty then .ok []
      else .error "TypeError: Cannot convert undefined or null to object"
    | priceRow :: rows =>
      let tiers := tiers0.map (fun t => { t with price := priceRow.getD t.index "" })
      let plans0 := initPlans tiers
      .ok (rows.foldl (addRowBenefits tiers nameMap) plans0)

/-! ## Shared helper lemmas -/

/-- A match of the pattern at one position is a nonempty run of id
characters. -/
lemma driveIdHere_spec : ∀ l run, driveIdHere l = some run →
    run ≠ [] ∧ ∀ c ∈ run, isDriveIdChar c = true := by
  intro l run h
  unfold driveIdHere at h
  split at h
  · split at h
    · cases h
    · rename_i hemp
      cases h
      refine ⟨?_, ?_⟩
      · intro hnil
        rw [hnil] at hemp
        simp at hemp
      · intro c hc
        exact List.mem_takeWhile_imp hc
  · cases h

/-- Any successful scan returns a nonempty run of id characters. -/
lemma findDriveId_spec : ∀ l run, findDriveId l = some run →
    run ≠ [] ∧ ∀ c ∈ run, isDriveIdChar c = true := by
  intro l
  induction l with
  | nil => intro run h; simp [findDriveId] at h
  | cons c cs ih =>
    intro run h
    rw [findDriveId] at h
    cases hd : driveIdHere (c :: cs) with
    | some r =>
      rw [hd] at h
      cases h
      exact driveIdHere_spec _ _ hd
    | none =>
      rw [hd] at h
      exact ih run h

/-- Fetch-side redirect recognition: only 307 and 301 count. -/
def isRedirectResponse (r : HttpResponse) : Prop :=
  r.statusCode = 307 ∨ r.statusCode = 301

instance : DecidablePred isRedirectResponse := fun r => by
  unfold isRedirectResponse
  exact inferInstance

/-- The redirect target exists and uses the secure scheme. -/
def secureLoc (r : HttpResponse) : Bool :=
  r.location.any (fun l => jsStartsWith l "https://")

/-- A hop counter beyond the bound fails up front. -/
lemma fetchCsv_tooMany (chain : List HttpResponse) (n : Nat) (h : n > MAX_REDIRECTS) :
    fetchCsv chain n = .error .tooManyRedirects := by
  rw [fetchCsv.eq_def]
  dsimp only
  rw [if_pos h]

/-- A 200 response within the bound resolves to its body. -/
lemma fetchCsv_ok (r : HttpResponse) (rest : List HttpResponse) (n : Nat)
    (hn : ¬ n > MAX_REDIRECTS) (h200 : r.statusCode = 200) :
    fetchCsv (r :: rest) n = .ok r.body := by
  rw [fetchCsv, if_neg hn]
  rw [if_neg (show ¬ (r.statusCode = 307 ∨ r.statusCode = 301) by rw [h200]; decide)]
  rw [if_pos h200]

/-- A redirect without a secure target is a terminal error. -/
lemma fetchCsv_insecure (r : HttpResponse) (rest : List HttpResponse) (n : Nat)
    (hn : ¬ n > MAX_REDIRECTS) (hst : isRedirectResponse r) (hsec : secureLoc r = false) :
    fetchCsv (r :: rest) n = .error .invalidRedirect := by
  have hst2 : r.statusCode = 307 ∨ r.statusCode = 301 := hst
  rw [fetchCsv, if_neg hn, if_pos hst2]
  cases hO : r.location with
  | none => rfl
  | some loc =>
    rw [secureLoc, hO] at hsec
    simp only [Option.any_some] at hsec
    simp only [hsec, Bool.false_eq_true, if_false]

/-- Following one well-formed secure redirect consumes one hop. -/
lemma fetchCsv_cons (r : HttpResponse) (rest : List HttpResponse) (n : Nat)
    (hn : ¬ n > MAX_REDIRECTS) (hst : isRedirectResponse r) (hsec : secureLoc r = true) :
    fetchCsv (r :: rest) n = fetchCsv rest (n + 1) := by
  have hst2 : r.statusCode = 307 ∨ r.statusCode = 301 := hst
  cases hO : r.location with
  | none => rw [secureLoc, hO] at hsec; cases hsec
  | some loc =>
    rw [secureLoc, hO] at hsec
    simp only [Option.any_some] at hsec
    rw [fetchCsv, if_neg hn, if_pos hst2]
    simp only [hO, hsec, if_true]

/-- A run of well-formed secure redirects adds its length to the hop
counter, as long as the counter stays within bounds along the way. -/
lemma fetchCsv_chain : ∀ (rs tail : List HttpResponse) (n : Nat),
    (∀ r ∈ rs, isRedirectResponse r ∧ secureLoc r = true) →
    n + rs.length ≤ MAX_REDIRECTS + 1 →
    fetchCsv (rs ++ tail) n = fetchCsv tail (n + rs.length) := by
  intro rs
  induction rs with
  | nil => intro tail n h hn; simp
  | cons r rs ih =>
    intro tail n h hn
    have hr := h r (List.mem_cons_self r rs)
    have hn5 : ¬ n > MAX_REDIRECTS := by
      simp only [List.length_cons] at hn
      omega
    rw [List.cons_append, fetchCsv_cons r (rs ++ tail) n hn5 hr.1 hr.2]
    rw [ih tail (n + 1) (fun x hx => h x (List.mem_cons_of_mem r hx)) (by
      simp only [List.length_cons] at hn
      omega)]
    congr 1
    simp only [List.length_cons]
    omega

/-! ## Claim theorems -/

/-- C8: the file extension is selected from the fixed MIME table
(image/jpeg to .jpg, image/png to .png, image/gif to .gif, image/webp
to .webp, image/svg+xml to .svg), and an absent or unlisted content
type selects the JPEG extension. -/
theorem getExtensionFromContentType_spec :
    getExtensionFromContentType none = ".jpg"
  ∧ getExtensionFromContentType (some "image/jpeg") = ".jpg"
  ∧ getExtensionFromContentType (some "image/png") = ".png"
  ∧ getExtensionFromContentType (some "image/gif") = ".gif"
  ∧ getExtensionFromContentType (some "image/webp") = ".webp"
  ∧ getExtensionFromContentType (some "image/svg+xml") = ".svg"
  ∧ ∀ ct : String,
      ct ∉ (["image/jpeg", "image/png", "image/gif", "image/webp", "image/svg+xml"] : List String) →
      getExtensionFromContentType (some ct) = ".jpg" := by
  refine ⟨rfl, rfl, rfl, rfl, rfl, rfl, ?_⟩
  intro ct h
  simp only [List.mem_cons, List.not_mem_nil, or_false, not_or] at h
  obtain ⟨h1, h2, h3, h4, h5⟩ := h
  by_cases hj : ct = "image/jpg"
  · subst hj
    rfl
  · simp only [getExtensionFromContentType, mimeToExt, List.lookup_cons,
      beq_false_of_ne h1, beq_false_of_ne hj, beq_false_of_ne h2, beq_false_of_ne h3,
      beq_false_of_ne h4, beq_false_of_ne h5, List.lookup_nil, Option.getD_none]

/-- C8 witness: a content type outside the table defaults to .jpg. -/
theorem getExtensionFromContentType_spec_witness :
    getExtensionFromContentType (some "text/plain") = ".jpg" :=
  getExtensionFromContentType_spec.2.2.2.2.2.2 "text/plain" (by decide)

/-- Any extracted identifier is nonempty and drawn from the id
character class. -/
lemma extractGoogleDriveId_chars (s id : String) (h : extractGoogleDriveId s = some id) :
    id ≠ "" ∧ ∀ c ∈ id.data, isDriveIdChar c = true := by
  unfold extractGoogleDriveId at h
  split at h
  · cases h
  · obtain ⟨cs, hcs, hid⟩ := Option.map_eq_some'.mp h
    obtain ⟨hne, hall⟩ := findDriveId_spec _ _ hcs
    have hdata : id.data = cs := by rw [← hid]
    constructor
    · intro h0
      apply hne
      have h1 := congrArg String.data h0
      rw [hdata] at h1
      exact h1
    · intro c hc
      exact hall c (hdata ▸ hc)

/-- C10: the sharable-link identifier extractor returns none on the
empty input, and any extracted identifier is a nonempty string made
only of ASCII letters, digits, underscores and hyphens, hence free of
dots, slashes and backslashes. -/
theorem extractGoogleDriveId_postcondition :
    extractGoogleDriveId "" = none
  ∧ ∀ s id, extractGoogleDriveId s = some id →
      id ≠ "" ∧ (∀ c ∈ id.data, isDriveIdChar c = true)
      ∧ '.' ∉ id.data ∧ '/' ∉ id.data ∧ '\\' ∉ id.data := by
  refine ⟨rfl, ?_⟩
  intro s id h
  obtain ⟨hne, hall⟩ := extractGoogleDriveId_chars s id h
  refine ⟨hne, hall, ?_, ?_, ?_⟩
  · intro hdot
    have := hall '.' hdot
    simp [isDriveIdChar] at this
  · intro hsl
    have := hall '/' hsl
    simp [isDriveIdChar] at this
  · intro hbs
    have := hall '\\' hbs
    simp [isDriveIdChar] at this

/-- C10 witness: the extractor on a real sharable link. -/
theorem extractGoogleDriveId_postcondition_witness :
    ("FILE_id-123" : String) ≠ ""
  ∧ (∀ c ∈ ("FILE_id-123" : String).data, isDriveIdChar c = true)
  ∧ '.' ∉ ("FILE_id-123" : String).data ∧ '/' ∉ ("FILE_id-123" : String).data
  ∧ '\\' ∉ ("FILE_id-123" : String).data :=
  extractGoogleDriveId_postcondition.2
    "https://drive.google.com/file/d/FILE_id-123/view?usp=sharing" "FILE_id-123" (by decide)

/-- C2: on the sheet fetch, six successive recognized redirects (301
or 307, each with a secure target) fail with the redirect-loop error;
five such redirects followed by a 200 succeed with that response's
body; and a redirect whose target is missing or not https terminates
the fetch with the invalid-redirect error. -/
theorem fetchCsv_redirect_bound :
    (∀ (rs tail : List HttpResponse), rs.length = 6 →
        (∀ r ∈ rs, isRedirectResponse r ∧ secureLoc r = true) →
        fetchCsv (rs ++ tail) 0 = .error .tooManyRedirects)
  ∧ (∀ (rs tail : List HttpResponse) (final : HttpResponse), rs.length = 5 →
        (∀ r ∈ rs, isRedirectResponse r ∧ secureLoc r = true) →
        final.statusCode = 200 →
        fetchCsv (rs ++ final :: tail) 0 = .ok final.body)
  ∧ (∀ (rs tail : List HttpResponse) (r : HttpResponse), rs.length ≤ 5 →
        (∀ x ∈ rs, isRedirectResponse x ∧ secureLoc x = true) →
        isRedirectResponse r → secureLoc r = false →
        fetchCsv (rs ++ r :: tail) 0 = .error .invalidRedirect) := by
  refine ⟨?_, ?_, ?_⟩
  · intro rs tail h6 hgood
    rw [fetchCsv_chain rs tail 0 hgood (by rw [h6]; decide), h6]
    exact fetchCsv_tooMany tail 6 (by decide)
  · intro rs tail final h5 hgood h200
    rw [fetchCsv_chain rs (final :: tail) 0 hgood (by rw [h5]; decide), h5]
    exact fetchCsv_ok final tail 5 (by decide) h200
  · intro rs tail r hle hgood hst hsec
    rw [fetchCsv_chain rs (r :: tail) 0 hgood
      (by show 0 + rs.length ≤ 5 + 1; omega)]
    exact fetchCsv_insecure r tail (0 + rs.length)
      (by show ¬ 0 + rs.length > 5; omega) hst hsec

def goodRedirect : HttpResponse :=
  { statusCode := 301, location := some "https://example.com/a", body := "" }

def badRedirect : HttpResponse :=
  { statusCode := 307, location := some "http://example.com/a", body := "" }

def okResponse : HttpResponse :=
  { statusCode := 200, location := none, body := "csv,data" }

/-- C2 witness: concrete chains of length six, five-plus-success, and
an insecure target. -/
theorem fetchCsv_redirect_bound_witness :
    fetchCsv (List.replicate 6 goodRedirect ++ []) 0 = .error .tooManyRedirects
  ∧ fetchCsv (List.replicate 5 goodRedirect ++ [okResponse]) 0 = .ok "csv,data"
  ∧ fetchCsv (List.replicate 2 goodRedirect ++ [badRedirect]) 0 = .error .invalidRedirect := by
  refine ⟨?_, ?_, ?_⟩
  · exact fetchCsv_redirect_bound.1 (List.replicate 6 goodRedirect) [] (by decide) (by decide)
  · exact fetchCsv_redirect_bound.2.1 (List.replicate 5 goodRedirect) [] okResponse
      (by decide) (by decide) (by decide)
  · exact fetchCsv_redirect_bound.2.2 (List.replicate 2 goodRedirect) [] badRedirect
      (by decide) (by decide) (by decide) (by decide)

/-! ## Sub-item extraction: claim C3 -/

/-- At least one localized name is present at this sub-item index. -/
def subItemPresent (row : Row) (i : Nat) : Prop :=
  row (subKeyZh i) ≠ "" ∨ row (subKeyEn i) ≠ ""

instance (row : Row) (i : Nat) : Decidable (subItemPresent row i) := by
  unfold subItemPresent
  exact inferInstance

/-- Loop-exit equation: past the safety bound the warning fires. -/
lemma extractSubItemsFrom_over (row : Row) (index : Nat) (h : ¬ index ≤ MAX_SUB_ITEMS) :
    extractSubItemsFrom row index = ([], true) := by
  rw [extractSubItemsFrom, if_neg h]

/-- Break equation: both names empty stops without the warning. -/
lemma extractSubItemsFrom_break (row : Row) (index : Nat) (h1 : index ≤ MAX_SUB_ITEMS)
    (h2 : row (subKeyZh index) = "" ∧ row (subKeyEn index) = "") :
    extractSubItemsFrom row index = ([], false) := by
  rw [extractSubItemsFrom, if_pos h1, if_pos h2]

/-- Step equation: a present index pushes one sub-item and continues. -/
lemma extractSubItemsFrom_cons (row : Row) (index : Nat) (h1 : index ≤ MAX_SUB_ITEMS)
    (h2 : ¬ (row (subKeyZh index) = "" ∧ row (subKeyEn index) = "")) :
    extractSubItemsFrom row index =
      (mkSubItem row index :: (extractSubItemsFrom row (index + 1)).1,
       (extractSubItemsFrom row (index + 1)).2) := by
  conv_lhs => rw [extractSubItemsFrom]
  rw [if_pos h1, if_neg h2]

/-- Exact item count when the loop breaks at position k. -/
lemma extractSubItemsFrom_stop : ∀ (n : Nat) (row : Row) (index k : Nat),
    k - index = n → index ≤ k → k ≤ MAX_SUB_ITEMS →
    (∀ i, index ≤ i → i < k → subItemPresent row i) →
    ¬ subItemPresent row k →
    (extractSubItemsFrom row index).1.length = n ∧ (extractSubItemsFrom row index).2 = false := by
  intro n
  induction n with
  | zero =>
    intro row index k h0 hik hk hpres hstop
    have hik2 : index = k := by omega
    subst hik2
    have hz : row (subKeyZh index) = "" ∧ row (subKeyEn index) = "" := by
      unfold subItemPresent at hstop
      push_neg at hstop
      exact hstop
    rw [extractSubItemsFrom_break row index hk hz]
    exact ⟨rfl, rfl⟩
  | succ n ih =>
    intro row index k hn hik hk hpres hstop
    have hi50 : index ≤ MAX_SUB_ITEMS := by omega
    have hipres : subItemPresent row index := hpres index le_rfl (by omega)
    have hcond : ¬ (row (subKeyZh index) = "" ∧ row (subKeyEn index) = "") := by
      unfold subItemPresent at hipres
      tauto
    rw [extractSubItemsFrom_cons row index hi50 hcond]
    have hrec := ih row (index + 1) k (by omega) (by omega) hk
      (fun i hx1 hx2 => hpres i (by omega) hx2) hstop
    refine ⟨?_, hrec.2⟩
    simp only [List.length_cons, hrec.1]

/-- The collected list never exceeds the remaining loop budget. -/
lemma extractSubItemsFrom_len_le : ∀ (n index : Nat) (row : Row),
    MAX_SUB_ITEMS + 1 - index = n → (extractSubItemsFrom row index).1.length ≤ n := by
  intro n
  induction n with
  | zero =>
    intro index row h
    have hgt : ¬ index ≤ MAX_SUB_ITEMS := by omega
    rw [extractSubItemsFrom, if_neg hgt]
    exact Nat.le_refl 0
  | succ n ih =>
    intro index row h
    have hle : index ≤ MAX_SUB_ITEMS := by omega
    by_cases hc : row (subKeyZh index) = "" ∧ row (subKeyEn index) = ""
    · rw [extractSubItemsFrom_break row index hle hc]
      exact Nat.zero_le _
    · rw [extractSubItemsFrom_cons row index hle hc]
      simp only [List.length_cons]
      have := ih (index + 1) row (by omega)
      omega

/-- The warning fires exactly when every remaining index is present. -/
lemma extractSubItemsFrom_warn : ∀ (n index : Nat) (row : Row),
    MAX_SUB_ITEMS + 1 - index = n →
    ((extractSubItemsFrom row index).2 = true ↔
      ∀ i, index ≤ i → i ≤ MAX_SUB_ITEMS → subItemPresent row i) := by
  intro n
  induction n with
  | zero =>
    intro index row h
    have hgt : ¬ index ≤ MAX_SUB_ITEMS := by omega
    rw [extractSubItemsFrom, if_neg hgt]
    constructor
    · intro _ i h1 h2
      exact absurd (h1.trans h2) hgt
    · intro _
      rfl
  | succ n ih =>
    intro index row h
    have hle : index ≤ MAX_SUB_ITEMS := by omega
    by_cases hc : row (subKeyZh index) = "" ∧ row (subKeyEn index) = ""
    · rw [extractSubItemsFrom_break row index hle hc]
      constructor
      · intro hfalse
        exact absurd hfalse (by decide)
      · intro hall
        exfalso
        have := hall index le_rfl hle
        unfold subItemPresent at this
        tauto
    · rw [extractSubItemsFrom_cons row index hle hc]
      rw [show ((mkSubItem row index :: (extractSubItemsFrom row (index + 1)).1,
          (extractSubItemsFrom row (index + 1)).2)).2 = (extractSubItemsFrom row (index + 1)).2 from rfl]
      rw [ih (index + 1) row (by omega)]
      constructor
      · intro hall i h1 h2
        rcases Nat.eq_or_lt_of_le h1 with heq | hlt
        · subst heq
          unfold subItemPresent
          tauto
        · exact hall i hlt h2
      · intro hall i h1 h2
        exact hall i (by omega) h2

/-- C3: sub-item extraction scans indices from 1 and stops at the
first index at which both localized names are empty (a break at index
k yields exactly k minus 1 sub-items, whatever later indices hold); at
most MAX_SUB_ITEMS sub-items are ever collected; and the truncation
warning fires exactly when all fifty indices carry a name. -/
theorem extractSubItems_spec :
    (∀ (row : Row) (k : Nat), 1 ≤ k → k ≤ MAX_SUB_ITEMS →
        (∀ i, 1 ≤ i → i < k → subItemPresent row i) → ¬ subItemPresent row k →
        (extractSubItems row).1.length = k - 1 ∧ (extractSubItems row).2 = false)
  ∧ (∀ row : Row, (extractSubItems row).1.length ≤ MAX_SUB_ITEMS)
  ∧ (∀ row : Row, ((extractSubItems row).2 = true ↔
        ∀ i, 1 ≤ i → i ≤ MAX_SUB_ITEMS → subItemPresent row i)) := by
  refine ⟨?_, ?_, ?_⟩
  · intro row k h1 hk hpres hstop
    exact extractSubItemsFrom_stop (k - 1) row 1 k (by omega) h1 hk hpres hstop
  · intro row
    exact extractSubItemsFrom_len_le MAX_SUB_ITEMS 1 row (by omega)
  · intro row
    exact extractSubItemsFrom_warn MAX_SUB_ITEMS 1 row (by omega)

/-- A row with names at indices 1 and 2 only, plus stray content at a
higher index. -/
def exRow3 : Row := fun k =>
  if k = subKeyZh 1 then "國際曝光" else if k = subKeyEn 2 then "beta"
  else if k = subKeyPrice 9 then "stray" else ""

/-- C3 witness: that row yields exactly two sub-items, no warning. -/
theorem extractSubItems_spec_witness :
    (extractSubItems exRow3).1.length = 2 ∧ (extractSubItems exRow3).2 = false :=
  extractSubItems_spec.1 exRow3 3 (by decide) (by decide)
    (fun i h1 h2 => by interval_cases i <;> decide) (by decide)

/-! ## Image harvest: claims C4 and C9 -/

/-- A successful association-list lookup locates a stored pair. -/
lemma lookup_mem {α : Type} : ∀ (l : List (String × α)) (k : String) (v : α),
    List.lookup k l = some v → (k, v) ∈ l := by
  intro l
  induction l with
  | nil => intro k v h; cases h
  | cons p ps ih =>
    intro k v h
    obtain ⟨pk, pv⟩ := p
    rw [List.lookup_cons] at h
    cases hk : (k == pk) with
    | true =>
      simp only [hk] at h
      cases h
      have hke : k = pk := by simpa using hk
      subst hke
      exact List.mem_cons_self _ _
    | false =>
      simp only [hk] at h
      exact List.mem_cons_of_mem _ (ih k v h)

/-- Every inferred extension begins with a dot. -/
lemma ext_head_dot : ∀ ct : Option String,
    (getExtensionFromContentType ct).data.head? = some '.' := by
  intro ct
  cases ct with
  | none => rfl
  | some s =>
    show ((List.lookup s mimeToExt).getD ".jpg").data.head? = some '.'
    cases hl : List.lookup s mimeToExt with
    | none => rfl
    | some r =>
      have hmem := lookup_mem mimeToExt s r hl
      simp only [mimeToExt, List.mem_cons, List.not_mem_nil, or_false] at hmem
      rcases hmem with h | h | h | h | h | h <;>
        · simp only [Prod.mk.injEq] at h
          rcases h with ⟨-, rfl⟩
          rfl

/-- Two dot-free lists extended by dot-led tails split uniquely. -/
lemma append_inj_of_head_dot : ∀ (a b e1 e2 : List Char),
    (∀ c ∈ a, c ≠ '.') → (∀ c ∈ b, c ≠ '.') →
    e1.head? = some '.' → e2.head? = some '.' →
    a ++ e1 = b ++ e2 → a = b := by
  intro a
  induction a with
  | nil =>
    intro b e1 e2 _ hb h1 h2 heq
    cases b with
    | nil => rfl
    | cons c bs =>
      exfalso
      rw [List.nil_append, List.cons_append] at heq
      rw [heq] at h1
      simp only [List.head?_cons] at h1
      cases h1
      exact hb '.' (List.mem_cons_self _ _) rfl
  | cons c as ih =>
    intro b e1 e2 ha hb h1 h2 heq
    cases b with
    | nil =>
      exfalso
      rw [List.nil_append, List.cons_append] at heq
      rw [← heq] at h2
      simp only [List.head?_cons] at h2
      cases h2
      exact ha '.' (List.mem_cons_self _ _) rfl
    | cons d bs =>
      rw [List.cons_append, List.cons_append] at heq
      injection heq with hcd htail
      subst hcd
      rw [ih bs e1 e2 (fun x hx => ha x (List.mem_cons_of_mem _ hx))
        (fun x hx => hb x (List.mem_cons_of_mem _ hx)) h1 h2 htail]

/-- setInsert preserves distinctness. -/
lemma setInsert_nodup (s : List String) (x : String) (h : s.Nodup) :
    (setInsert s x).Nodup := by
  unfold setInsert
  split
  · exact h
  · rename_i hc
    have hx : x ∉ s := by simpa using hc
    simp [List.nodup_append, h, hx]

/-- A fold whose step preserves distinctness preserves it overall. -/
lemma foldl_nodup {β : Type} (step : List String → β → List String)
    (hstep : ∀ acc b, acc.Nodup → (step acc b).Nodup) :
    ∀ (l : List β) (acc : List String), acc.Nodup → (l.foldl step acc).Nodup := by
  intro l
  induction l with
  | nil => intro acc h; exact h
  | cons b bs ih =>
    intro acc h
    exact ih _ (hstep acc b h)

/-- The rewrite pass maps every image reference through resolveRef. -/
lemma imageRefs_rewrite (m : List (String × String)) :
    ∀ items : List (String × Item),
      imageRefs (items.map (fun p => (p.1, rewriteItem m p.2))) =
        (imageRefs items).map (resolveRef m) := by
  intro items
  induction items with
  | nil => rfl
  | cons p ps ih =>
    simp only [imageRefs, List.map_cons, List.map_append]
    rw [ih]
    have hsub : (rewriteItem m p.2).sub =
        p.2.sub.map (fun s => { s with image := resolveRef m s.image }) := rfl
    rw [hsub]
    simp only [List.map_map]
    rfl

/-- C4: every image reference is resolved through the single
identifier-to-filename map (references equal before the harvest remain
equal after it); the identifier set is collected without duplicates,
so each identifier is downloaded once; and filenames derived from two
distinct extracted identifiers never collide, whatever content types
the two downloads declare. -/
theorem imageFilename_dedup_injective :
    (∀ (itemsData : List (String × Item)) (net : ImgNet) (i j : Nat),
        (imageRefs itemsData)[i]? = (imageRefs itemsData)[j]? →
        (imageRefs (downloadAllImages itemsData net))[i]? =
          (imageRefs (downloadAllImages itemsData net))[j]?)
  ∧ (∀ itemsData : List (String × Item), (collectImageIds itemsData).Nodup)
  ∧ (∀ (u1 u2 id1 id2 : String) (ct1 ct2 : Option String),
        extractGoogleDriveId u1 = some id1 → extractGoogleDriveId u2 = some id2 →
        id1 ≠ id2 →
        id1 ++ getExtensionFromContentType ct1 ≠ id2 ++ getExtensionFromContentType ct2) := by
  refine ⟨?_, ?_, ?_⟩
  · intro itemsData net i j h
    unfold downloadAllImages
    rw [imageRefs_rewrite, List.getElem?_map, List.getElem?_map, h]
  · intro itemsData
    unfold collectImageIds
    refine foldl_nodup _ ?_ itemsData [] List.nodup_nil
    intro acc p hacc
    refine foldl_nodup _ ?_ p.2.sub _ ?_
    · intro a s ha
      split
      · exact setInsert_nodup a s.image ha
      · exact ha
    · split
      · exact setInsert_nodup acc p.2.image hacc
      · exact hacc
  · intro u1 u2 id1 id2 ct1 ct2 h1 h2 hne heq
    obtain ⟨-, hc1⟩ := extractGoogleDriveId_chars u1 id1 h1
    obtain ⟨-, hc2⟩ := extractGoogleDriveId_chars u2 id2 h2
    apply hne
    have hdata := congrArg String.data heq
    rw [String.data_append, String.data_append] at hdata
    have hd : id1.data = id2.data :=
      append_inj_of_head_dot id1.data id2.data _ _
        (fun c hc hcd => by
          have hx := hc1 c hc
          rw [hcd] at hx
          simp [isDriveIdChar] at hx)
        (fun c hc hcd => by
          have hx := hc2 c hc
          rw [hcd] at hx
          simp [isDriveIdChar] at hx)
        (ext_head_dot ct1) (ext_head_dot ct2) hdata
    exact congrArg String.mk hd

/-- C4 witness: distinct ids extracted from two links, distinct files. -/
theorem imageFilename_dedup_injective_witness :
    "abc" ++ getExtensionFromContentType (some "image/png") ≠
      "abd" ++ getExtensionFromContentType none :=
  imageFilename_dedup_injective.2.2 "https://x/d/abc/view" "https://x/d/abd/view"
    "abc" "abd" (some "image/png") none (by decide) (by decide) (by decide)

/-- An identifier absent from the map is left untouched. -/
lemma resolveRef_none (m : List (String × String)) (img : String)
    (h : m.lookup img = none) : resolveRef m img = img := by
  unfold resolveRef
  split
  · rfl
  · rw [h]

/-- C9: the harvest rewrites each record in place; a record whose
image identifier gained no entry in the identifier-to-filename map
(its download failed) keeps its bare identifier, and every field other
than the image references is untouched in every case, for items and
sub-items alike. -/
theorem image_failure_frame :
    (∀ (itemsData : List (String × Item)) (net : ImgNet) (i : Nat) (p : String × Item),
        itemsData[i]? = some p →
        (downloadAllImages itemsData net)[i]? =
          some (p.1, rewriteItem (buildImageMap itemsData net) p.2))
  ∧ (∀ (m : List (String × String)) (it : Item),
        (m.lookup it.image = none → (rewriteItem m it).image = it.image)
      ∧ (rewriteItem m it).name = it.name
      ∧ (rewriteItem m it).quantity = it.quantity
      ∧ (rewriteItem m it).global_description_zh = it.global_description_zh
      ∧ (rewriteItem m it).global_description_en = it.global_description_en
      ∧ (rewriteItem m it).talent_recruitment_zh = it.talent_recruitment_zh
      ∧ (rewriteItem m it).talent_recruitment_en = it.talent_recruitment_en
      ∧ (rewriteItem m it).brand_exposure_zh = it.brand_exposure_zh
      ∧ (rewriteItem m it).brand_exposure_en = it.brand_exposure_en
      ∧ (rewriteItem m it).product_promotion_zh = it.product_promotion_zh
      ∧ (rewriteItem m it).product_promotion_en = it.product_promotion_en
      ∧ (rewriteItem m it).image_description_zh = it.image_description_zh
      ∧ (rewriteItem m it).image_description_en = it.image_description_en
      ∧ (rewriteItem m it).price = it.price
      ∧ (rewriteItem m it).deadline = it.deadline
      ∧ (rewriteItem m it).talent_recruitment_order = it.talent_recruitment_order
      ∧ (rewriteItem m it).brand_exposure_order = it.brand_exposure_order
      ∧ (rewriteItem m it).product_promotion_order = it.product_promotion_order
      ∧ (rewriteItem m it).sub.length = it.sub.length
      ∧ ∀ (k : Nat) (s : SubItem), it.sub[k]? = some s →
          (rewriteItem m it).sub[k]? = some
            { s with image := resolveRef m s.image }
          ∧ (m.lookup s.image = none → resolveRef m s.image = s.image)) := by
  constructor
  · intro itemsData net i p hp
    unfold downloadAllImages
    rw [List.getElem?_map, hp]
    rfl
  · intro m it
    refine ⟨?_, rfl, rfl, rfl, rfl, rfl, rfl, rfl, rfl, rfl, rfl, rfl, rfl, rfl, rfl,
      rfl, rfl, rfl, ?_, ?_⟩
    · intro h
      exact resolveRef_none m it.image h
    · simp [rewriteItem]
    · intro k s hs
      constructor
      · simp only [rewriteItem]
        rw [List.getElem?_map, hs]
        rfl
      · intro h
        exact resolveRef_none m s.image h

/-- An item whose sole image download fails. -/
def exFailItem : Item :=
  { name := "廣告刊物", quantity := "", global_description_zh := ""
  , global_description_en := "", talent_recruitment_zh := "", talent_recruitment_en := ""
  , brand_exposure_zh := "", brand_exposure_en := "", product_promotion_zh := ""
  , product_promotion_en := "", image := "failid9", image_description_zh := ""
  , image_description_en := "", price := "", deadline := ""
  , talent_recruitment_order := 0, brand_exposure_order := 0, product_promotion_order := 0
  , sub := [] }

/-- A network on which every image download fails. -/
def exFailNet : ImgNet := fun _ => none

/-- C9 witness: the failed download leaves the record unchanged. -/
theorem image_failure_frame_witness :
    (downloadAllImages [("9", exFailItem)] exFailNet)[0]? =
      some ("9", rewriteItem (buildImageMap [("9", exFailItem)] exFailNet) exFailItem)
  ∧ (rewriteItem (buildImageMap [("9", exFailItem)] exFailNet) exFailItem).image =
      exFailItem.image :=
  ⟨image_failure_frame.1 [("9", exFailItem)] exFailNet 0 ("9", exFailItem) (by decide),
   (image_failure_frame.2 (buildImageMap [("9", exFailItem)] exFailNet) exFailItem).1
     (by decide)⟩

/-! ## Item merger: claim C5 -/

/-- The key carries the insert, so the key list either stays put (the
key was present) or grows by the new key at the end. -/
lemma objInsert_keys {α : Type} (k : String) (v : α) (l : List (String × α)) :
    (objInsert k v l).map Prod.fst =
      if l.any (fun p => p.1 == k) then l.map Prod.fst else l.map Prod.fst ++ [k] := by
  unfold objInsert
  split
  · rw [List.map_map]
    refine List.map_congr_left ?_
    intro p _
    by_cases hp : p.1 = k
    · simp [hp]
    · simp [hp]
  · rw [List.map_append]
    rfl

/-- The membership test of objInsert agrees with key membership. -/
lemma any_key_iff {α : Type} (l : List (String × α)) (k : String) :
    l.any (fun p => p.1 == k) = true ↔ k ∈ l.map Prod.fst := by
  rw [List.any_eq_true]
  constructor
  · rintro ⟨p, hp, he⟩
    have : p.1 = k := by simpa using he
    exact this ▸ List.mem_map_of_mem Prod.fst hp
  · intro h
    obtain ⟨p, hp, he⟩ := List.mem_map.mp h
    exact ⟨p, hp, by simpa using he⟩

/-- objInsert keeps the key list duplicate-free. -/
lemma objInsert_keys_nodup {α : Type} (k : String) (v : α) (l : List (String × α))
    (h : (l.map Prod.fst).Nodup) : ((objInsert k v l).map Prod.fst).Nodup := by
  rw [objInsert_keys]
  split
  · exact h
  · rename_i hany
    have hk : k ∉ l.map Prod.fst := fun hmem => hany ((any_key_iff l k).mpr hmem)
    simp [List.nodup_append, h, hk]

/-- The inserted key is present afterwards. -/
lemma objInsert_mem_keys {α : Type} (k : String) (v : α) (l : List (String × α)) :
    k ∈ (objInsert k v l).map Prod.fst := by
  rw [objInsert_keys]
  split
  · rename_i h
    exact (any_key_iff l k).mp h
  · exact List.mem_append_right _ (List.mem_singleton_self k)

/-- Insertion never removes a key. -/
lemma objInsert_keys_mono {α : Type} (k : String) (v : α) (l : List (String × α))
    (x : String) (h : x ∈ l.map Prod.fst) : x ∈ (objInsert k v l).map Prod.fst := by
  rw [objInsert_keys]
  split
  · exact h
  · exact List.mem_append_left _ h

/-- Every stored pair is the inserted one or an original. -/
lemma objInsert_mem_pairs {α : Type} (k : String) (v : α) (l : List (String × α))
    (p : String × α) (hp : p ∈ objInsert k v l) : p = (k, v) ∨ p ∈ l := by
  unfold objInsert at hp
  split at hp
  · obtain ⟨q, hq, hqe⟩ := List.mem_map.mp hp
    by_cases hqk : q.1 = k
    · left
      rw [← hqe, if_pos hqk]
    · right
      rw [← hqe, if_neg hqk]
      exact hq
  · rcases List.mem_append.mp hp with h | h
    · right
      exact h
    · left
      simpa using h

/-- No row of the named satellite tab carries this item code (which
also covers the tab being absent altogether). -/
def noSatelliteMatch (sheets : Sheets) (tab code : String) : Prop :=
  ∀ satRows, sheets tab = some satRows → ∀ r ∈ satRows, ¬ (r "編號" = code)

/-- Under noSatelliteMatch the per-tab search comes back empty. -/
lemma findItemInSheet_none (sheets : Sheets) (tab code : String)
    (h : noSatelliteMatch sheets tab code) : findItemInSheet sheets tab code = none := by
  unfold findItemInSheet
  cases hs : sheets tab with
  | none => rfl
  | some satRows =>
    rw [List.find?_eq_none]
    intro r hr
    have := h satRows hs r hr
    simpa using this

/-- The merge fold keeps catalog keys duplicate-free. -/
lemma mergeFold_nodup (sheets : Sheets) : ∀ (rows : List Row) (acc : List (String × Item)),
    (acc.map Prod.fst).Nodup → ((rows.foldl (mergeStep sheets) acc).map Prod.fst).Nodup := by
  intro rows
  induction rows with
  | nil => intro acc h; exact h
  | cons r rs ih =>
    intro acc h
    refine ih _ ?_
    unfold mergeStep
    split
    · exact h
    · exact objInsert_keys_nodup _ _ _ h

/-- The merge fold never drops a key. -/
lemma mergeFold_keys_mono (sheets : Sheets) : ∀ (rows : List Row) (acc : List (String × Item))
    (x : String), x ∈ acc.map Prod.fst → x ∈ (rows.foldl (mergeStep sheets) acc).map Prod.fst := by
  intro rows
  induction rows with
  | nil => intro acc x h; exact h
  | cons r rs ih =>
    intro acc x h
    refine ih _ x ?_
    unfold mergeStep
    split
    · exact h
    · exact objInsert_keys_mono _ _ _ x h

/-- A code carried by some row with a non-empty code ends up a key. -/
lemma mergeFold_mem_keys (sheets : Sheets) : ∀ (rows : List Row) (acc : List (String × Item))
    (code : String), code ≠ "" → (∃ row ∈ rows, row "編號" = code) →
    code ∈ (rows.foldl (mergeStep sheets) acc).map Prod.fst := by
  intro rows
  induction rows with
  | nil =>
    intro acc code _ hex
    obtain ⟨row, hmem, -⟩ := hex
    cases hmem
  | cons r rs ih =>
    intro acc code hne hex
    obtain ⟨row, hmem, hcode⟩ := hex
    rcases List.mem_cons.mp hmem with rfl | hmem2
    · refine mergeFold_keys_mono sheets rs _ code ?_
      unfold mergeStep
      rw [hcode, if_neg hne]
      exact objInsert_mem_keys _ _ _
    · exact ih _ code hne ⟨row, hmem2, hcode⟩

/-- Every catalog entry was built from some primary row bearing its
code. -/
lemma mergeFold_values (sheets : Sheets) : ∀ (rows : List Row) (acc : List (String × Item))
    (p : String × Item), p ∈ rows.foldl (mergeStep sheets) acc →
    p ∈ acc ∨ ∃ row ∈ rows, row "編號" = p.1 ∧ p.1 ≠ "" ∧ p.2 = buildItem sheets row := by
  intro rows
  induction rows with
  | nil => intro acc p h; exact Or.inl h
  | cons r rs ih =>
    intro acc p h
    rcases ih _ p h with hstep | ⟨row, hmem, hrest⟩
    · unfold mergeStep at hstep
      split at hstep
      · exact Or.inl hstep
      · rename_i hne
        rcases objInsert_mem_pairs _ _ _ p hstep with rfl | hacc
        · exact Or.inr ⟨r, List.mem_cons_self _ _, rfl, hne, rfl⟩
        · exact Or.inl hacc
    · exact Or.inr ⟨row, List.mem_cons_of_mem _ hmem, hrest⟩

/-- C5: when the primary tab is present and nonempty the merge
succeeds, and every non-empty item code carried by a primary row keys
exactly one catalog entry; when a satellite tab has no row matching
the code, the entry's description fields for that tab hold the empty
string (the fields are always present on the record). -/
theorem mergeSheetData_catalog_spec :
    ∀ (sheets : Sheets) (rows : List Row),
      sheets "items" = some rows → rows ≠ [] →
      mergeSheetData sheets = .ok (mergeItemsList sheets rows)
    ∧ ∀ code : String, code ≠ "" → (∃ row ∈ rows, row "編號" = code) →
        ((mergeItemsList sheets rows).map Prod.fst).count code = 1
      ∧ ∀ it : Item, (mergeItemsList sheets rows).lookup code = some it →
          (noSatelliteMatch sheets "global_description" code →
            it.global_description_zh = "" ∧ it.global_description_en = "")
        ∧ (noSatelliteMatch sheets "talent_recruitment" code →
            it.talent_recruitment_zh = "" ∧ it.talent_recruitment_en = "")
        ∧ (noSatelliteMatch sheets "brand_exposure" code →
            it.brand_exposure_zh = "" ∧ it.brand_exposure_en = "")
        ∧ (noSatelliteMatch sheets "product_promotion" code →
            it.product_promotion_zh = "" ∧ it.product_promotion_en = "") := by
  intro sheets rows hitems hne
  have hempty : rows.isEmpty = false := by
    cases rows with
    | nil => exact absurd rfl hne
    | cons a l => rfl
  constructor
  · unfold mergeSheetData
    rw [hitems]
    show (if rows.isEmpty = true then Except.error "Items sheet is empty or not found"
        else Except.ok (mergeItemsList sheets rows)) = Except.ok (mergeItemsList sheets rows)
    rw [if_neg (by rw [hempty]; exact Bool.false_ne_true)]
  · intro code hcode hex
    constructor
    · exact List.count_eq_one_of_mem
        (mergeFold_nodup sheets rows [] (by simp))
        (mergeFold_mem_keys sheets rows [] code hcode hex)
    · intro it hl
      have hpair := lookup_mem _ code it hl
      rcases mergeFold_values sheets rows [] (code, it) hpair with habs | ⟨row, -, hrow, -, hit⟩
      · cases habs
      · subst hit
        refine ⟨?_, ?_, ?_, ?_⟩ <;>
          · intro hnm
            simp only [buildItem, hrow, findItemInSheet_none _ _ _ hnm]
            exact ⟨rfl, rfl⟩

/-- A one-row primary tab and no satellite tabs. -/
def exMergeRow : Row := fun k =>
  if k = "編號" then "7" else if k = "項目" then "活動入場" else ""

def exMergeSheets : Sheets := fun t => if t = "items" then some [exMergeRow] else none

/-- C5 witness: code 7 keys exactly one entry of the merged catalog. -/
theorem mergeSheetData_catalog_spec_witness :
    mergeSheetData exMergeSheets = .ok (mergeItemsList exMergeSheets [exMergeRow])
  ∧ ((mergeItemsList exMergeSheets [exMergeRow]).map Prod.fst).count "7" = 1 := by
  have h := mergeSheetData_catalog_spec exMergeSheets [exMergeRow] rfl (by simp)
  exact ⟨h.1, (h.2 "7" (by decide) ⟨exMergeRow, List.mem_singleton_self _, by decide⟩).1⟩

/-! ## Plan builder: claims C7, C6, C1 -/

/-- Pushing a benefit never changes the key order. -/
lemma pushBenefit_keys (pid : String) (b : Benefit) (plans : List (String × Plan)) :
    (pushBenefit pid b plans).map Prod.fst = plans.map Prod.fst := by
  unfold pushBenefit
  rw [List.map_map]
  refine List.map_congr_left ?_
  intro p _
  by_cases hp : p.1 = pid
  · simp [hp]
  · simp [hp]

/-- objInsert grows the object by at most one entry. -/
lemma objInsert_length {α : Type} (k : String) (v : α) (l : List (String × α)) :
    (objInsert k v l).length ≤ l.length + 1 := by
  unfold objInsert
  split
  · rw [List.length_map]
    omega
  · rw [List.length_append]
    rfl

/-- One tier step leaves the key order unchanged. -/
lemma tierStep_keys (row : List String) (i n : String) (acc : List (String × Plan))
    (jt : Nat × PlanTier) : (tierStep row i n acc jt).map Prod.fst = acc.map Prod.fst := by
  unfold tierStep
  split
  · exact pushBenefit_keys _ _ _
  · rfl

/-- The whole tier loop leaves the key order unchanged. -/
lemma tierFold_keys (row : List String) (i n : String) :
    ∀ (l : List (Nat × PlanTier)) (acc : List (String × Plan)),
      (l.foldl (tierStep row i n) acc).map Prod.fst = acc.map Prod.fst := by
  intro l
  induction l with
  | nil => intro acc; rfl
  | cons jt l ih =>
    intro acc
    rw [List.foldl_cons, ih, tierStep_keys]

/-- One tier step appends exactly one benefit at the tier's position
and leaves every other plan untouched (keys are duplicate-free, so the
keyed push lands only there). -/
lemma tierStep_getElem (row : List String) (i n : String) (acc : List (String × Plan))
    (jt : Nat × PlanTier) (j : Nat) (p : String × Plan)
    (hnd : (acc.map Prod.fst).Nodup) (hj : acc[j]? = some p) :
    (tierStep row i n acc jt)[j]? = some (if jt.1 = j then
      (p.1, { p.2 with benefits := p.2.benefits ++
        [{ item_id := i, item_name := n, quantity := jsTrim (row.getD jt.2.index "") }] })
      else p) := by
  have hjlt : j < acc.length := by
    by_contra hcon
    push_neg at hcon
    rw [List.getElem?_eq_none hcon] at hj
    cases hj
  unfold tierStep
  cases hk : (acc.map Prod.fst)[jt.1]? with
  | none =>
    have hge : acc.length ≤ jt.1 := by
      by_contra hcon
      push_neg at hcon
      rw [List.getElem?_eq_getElem (by simpa using hcon)] at hk
      cases hk
    rw [if_neg (by omega)]
    exact hj
  | some pid =>
    unfold pushBenefit
    rw [List.getElem?_map, hj]
    by_cases hjj : jt.1 = j
    · subst hjj
      have hpid : pid = p.1 := by
        rw [List.getElem?_map, hj] at hk
        simpa using hk.symm
      subst hpid
      simp
    · rw [if_neg hjj]
      have hp1 : p.1 ≠ pid := by
        intro hcon
        have h1 : (acc.map Prod.fst)[j]? = some pid := by
          rw [List.getElem?_map, hj]
          simp [hcon]
        have hlt2 : jt.1 < (acc.map Prod.fst).length := by
          by_contra hcon2
          push_neg at hcon2
          rw [List.getElem?_eq_none hcon2] at hk
          cases hk
        exact hjj (List.getElem?_inj hlt2 hnd (hk.trans h1.symm))
      simp [hp1]

/-- Across the tier loop a plan at position j gains exactly as many
benefits as there are loop entries carrying index j. -/
lemma tierFold_getElem (row : List String) (i n : String) :
    ∀ (l : List (Nat × PlanTier)) (acc : List (String × Plan)) (j : Nat) (p : String × Plan),
      (acc.map Prod.fst).Nodup → acc[j]? = some p →
      ∃ q, (l.foldl (tierStep row i n) acc)[j]? = some q ∧ q.1 = p.1 ∧
        q.2.benefits.length = p.2.benefits.length + l.countP (fun jt => jt.1 == j) := by
  intro l
  induction l with
  | nil =>
    intro acc j p hnd hj
    exact ⟨p, hj, rfl, by simp⟩
  | cons jt l ih =>
    intro acc j p hnd hj
    have hstep := tierStep_getElem row i n acc jt j p hnd hj
    have hnd2 : ((tierStep row i n acc jt).map Prod.fst).Nodup := by
      rw [tierStep_keys]
      exact hnd
    obtain ⟨q, hq, hq1, hqlen⟩ := ih (tierStep row i n acc jt) j _ hnd2 hstep
    refine ⟨q, by rw [List.foldl_cons]; exact hq, ?_, ?_⟩
    · rw [hq1]
      by_cases hjj : jt.1 = j <;> simp [hjj]
    · rw [hqlen, List.countP_cons]
      by_cases hjj : jt.1 = j
      · have hb : (jt.1 == j) = true := by simpa using hjj
        rw [if_pos hjj, hb]
        simp only [List.length_append, List.length_cons, List.length_nil, if_true]
        omega
      · have hb : (jt.1 == j) = false := by simpa using hjj
        rw [if_neg hjj, hb]
        simp

/-- A benefit row leaves the key order unchanged. -/
lemma addRowBenefits_keys (tiers : List PlanTier) (nameMap : List (String × String))
    (plans : List (String × Plan)) (row : List String) :
    (addRowBenefits tiers nameMap plans row).map Prod.fst = plans.map Prod.fst := by
  unfold addRowBenefits
  split
  · exact tierFold_keys _ _ _ _ _
  · rfl

/-- A kept row adds exactly one benefit to the plan at every position;
a skipped row adds none. -/
lemma addRowBenefits_getElem (tiers : List PlanTier) (nameMap : List (String × String))
    (plans : List (String × Plan)) (row : List String) (j : Nat) (p : String × Plan)
    (hnd : (plans.map Prod.fst).Nodup) (hlen : plans.length ≤ tiers.length)
    (hj : plans[j]? = some p) :
    ∃ q, (addRowBenefits tiers nameMap plans row)[j]? = some q ∧ q.1 = p.1 ∧
      q.2.benefits.length = p.2.benefits.length + (if rowKept nameMap row then 1 else 0) := by
  have hjlt : j < plans.length := by
    by_contra hcon
    push_neg at hcon
    rw [List.getElem?_eq_none hcon] at hj
    cases hj
  unfold addRowBenefits
  split
  · rename_i hkept
    obtain ⟨q, hq, h1, h2⟩ := tierFold_getElem row _ _ tiers.enum plans j p hnd hj
    refine ⟨q, hq, h1, ?_⟩
    rw [h2]
    have hcount : tiers.enum.countP (fun jt => jt.1 == j) = 1 := by
      have hmap : tiers.enum.map Prod.fst = List.range tiers.length := List.enum_map_fst tiers
      have hstep : tiers.enum.countP (fun jt => jt.1 == j) =
          (tiers.enum.map Prod.fst).countP (fun x => x == j) := by
        rw [List.countP_map]
        rfl
      rw [hstep, hmap]
      show List.count j (List.range tiers.length) = 1
      exact List.count_eq_one_of_mem (List.nodup_range tiers.length)
        (List.mem_range.mpr (lt_of_lt_of_le hjlt hlen))
    rw [hcount]
  · refine ⟨p, hj, rfl, ?_⟩
    omega

/-- The benefit-row loop leaves the key order unchanged. -/
lemma rowsFold_keys (tiers : List PlanTier) (nameMap : List (String × String)) :
    ∀ (rows : List (List String)) (plans : List (String × Plan)),
      (rows.foldl (addRowBenefits tiers nameMap) plans).map Prod.fst = plans.map Prod.fst := by
  intro rows
  induction rows with
  | nil => intro plans; rfl
  | cons row rows ih =>
    intro plans
    rw [List.foldl_cons, ih, addRowBenefits_keys]

/-- Across all benefit rows each plan gains exactly one benefit per
kept row. -/
lemma rowsFold_getElem (tiers : List PlanTier) (nameMap : List (String × String)) :
    ∀ (rows : List (List String)) (plans : List (String × Plan)) (j : Nat) (p : String × Plan),
      (plans.map Prod.fst).Nodup → plans.length ≤ tiers.length → plans[j]? = some p →
      ∃ q, (rows.foldl (addRowBenefits tiers nameMap) plans)[j]? = some q ∧ q.1 = p.1 ∧
        q.2.benefits.length = p.2.benefits.length + rows.countP (rowKept nameMap) := by
  intro rows
  induction rows with
  | nil =>
    intro plans j p _ _ hj
    exact ⟨p, hj, rfl, by simp⟩
  | cons row rows ih =>
    intro plans j p hnd hlen hj
    obtain ⟨q1, hq1, h11, h12⟩ := addRowBenefits_getElem tiers nameMap plans row j p hnd hlen hj
    have hkeys := addRowBenefits_keys tiers nameMap plans row
    have hnd2 : ((addRowBenefits tiers nameMap plans row).map Prod.fst).Nodup := by
      rw [hkeys]
      exact hnd
    have hleneq : (addRowBenefits tiers nameMap plans row).length = plans.length := by
      have h := congrArg List.length hkeys
      simpa using h
    obtain ⟨q, hq, hq1', hqlen⟩ := ih _ j q1 hnd2 (by omega) hq1
    refine ⟨q, by rw [List.foldl_cons]; exact hq, hq1'.trans h11, ?_⟩
    rw [hqlen, h12, List.countP_cons]
    split_ifs <;> omega

/-- The plans object has duplicate-free keys. -/
lemma initPlans_keys_nodup_aux : ∀ (l : List (Nat × PlanTier)) (acc : List (String × Plan)),
    (acc.map Prod.fst).Nodup → ((l.foldl initStep acc).map Prod.fst).Nodup := by
  intro l
  induction l with
  | nil => intro acc h; exact h
  | cons st l ih =>
    intro acc h
    exact ih _ (objInsert_keys_nodup _ _ _ h)

/-- The plans object is no larger than the tier list. -/
lemma initPlans_length_aux : ∀ (l : List (Nat × PlanTier)) (acc : List (String × Plan)),
    (l.foldl initStep acc).length ≤ acc.length + l.length := by
  intro l
  induction l with
  | nil => intro acc; simp
  | cons st l ih =>
    intro acc
    rw [List.foldl_cons]
    have h1 := ih (initStep acc st)
    have h2 : (initStep acc st).length ≤ acc.length + 1 := objInsert_length _ _ _
    simp only [List.length_cons]
    omega

/-- Every plan starts with an empty benefit list. -/
lemma initPlans_benefits_nil : ∀ (l : List (Nat × PlanTier)) (acc : List (String × Plan)),
    (∀ p ∈ acc, p.2.benefits = []) → ∀ p ∈ l.foldl initStep acc, p.2.benefits = [] := by
  intro l
  induction l with
  | nil => intro acc h; exact h
  | cons st l ih =>
    intro acc h
    refine ih _ ?_
    intro p hp
    rcases objInsert_mem_pairs _ _ _ p hp with rfl | hmem
    · rfl
    · exact h p hmem

/-- C7: in any successful plan build, every plan's benefit list has
exactly one entry per qualifying benefit row (lead column non-blank
and not classified as a category header) — one benefit per plan per
kept row, never suppressed by a blank quantity cell. -/
theorem processPlanData_benefit_cardinality :
    ∀ (planSheet : List (List String)) (itemsData : List (String × Item))
      (plans : List (String × Plan)),
      processPlanData planSheet itemsData = .ok plans →
      ∀ p ∈ plans,
        p.2.benefits.length = (planSheet.drop 2).countP (rowKept (itemNameToId itemsData)) := by
  intro planSheet itemsData plans hok p hp
  match planSheet with
  | [] => simp [processPlanData] at hok
  | [headerRow] =>
    simp only [processPlanData] at hok
    split at hok
    · cases hok
      cases hp
    · cases hok
  | headerRow :: priceRow :: rows =>
    simp only [processPlanData, Except.ok.injEq] at hok
    subst hok
    obtain ⟨j, hj⟩ := List.mem_iff_getElem?.mp hp
    set tiers := (planTiersOf headerRow).map
      (fun t => { t with price := priceRow.getD t.index "" }) with htiers
    have hkeys := rowsFold_keys tiers (itemNameToId itemsData) rows (initPlans tiers)
    have hleneq : (rows.foldl (addRowBenefits tiers (itemNameToId itemsData))
        (initPlans tiers)).length = (initPlans tiers).length := by
      have h := congrArg List.length hkeys
      simpa using h
    have hjlt : j < (initPlans tiers).length := by
      have : j < (rows.foldl (addRowBenefits tiers (itemNameToId itemsData))
          (initPlans tiers)).length := by
        by_contra hcon
        push_neg at hcon
        rw [List.getElem?_eq_none hcon] at hj
        cases hj
      omega
    have hinit : (initPlans tiers)[j]? = some ((initPlans tiers)[j]) :=
      List.getElem?_eq_getElem hjlt
    have hnd : ((initPlans tiers).map Prod.fst).Nodup :=
      initPlans_keys_nodup_aux tiers.enum [] List.nodup_nil
    have hlen : (initPlans tiers).length ≤ tiers.length := by
      have h := initPlans_length_aux tiers.enum []
      simpa [List.enum_length] using h
    obtain ⟨q, hq, -, hqlen⟩ := rowsFold_getElem tiers (itemNameToId itemsData) rows
      (initPlans tiers) j _ hnd hlen hinit
    have hqp : q = p := by
      rw [hq] at hj
      exact Option.some.inj hj
    have hnil : ((initPlans tiers)[j]).2.benefits = [] :=
      initPlans_benefits_nil tiers.enum [] (by intro p h; cases h) _
        (List.getElem_mem hjlt)
    rw [← hqp, hqlen, hnil]
    simp

/-- A benefit found after a push is the pushed one or was already
stored in some plan. -/
lemma pushBenefit_benefit_mem (pid : String) (b : Benefit) (plans : List (String × Plan))
    (p : String × Plan) (hp : p ∈ pushBenefit pid b plans) (b' : Benefit)
    (hb' : b' ∈ p.2.benefits) : b' = b ∨ ∃ p0 ∈ plans, b' ∈ p0.2.benefits := by
  unfold pushBenefit at hp
  obtain ⟨q, hq, hfq⟩ := List.mem_map.mp hp
  subst hfq
  by_cases hqp : q.1 = pid
  · rw [if_pos hqp] at hb'
    rcases List.mem_append.mp hb' with h | h
    · exact Or.inr ⟨q, hq, h⟩
    · exact Or.inl (List.mem_singleton.mp h)
  · rw [if_neg hqp] at hb'
    exact Or.inr ⟨q, hq, hb'⟩

/-- A benefit property holding of the pushed benefit is preserved by
one tier step. -/
lemma tierStep_inv (row : List String) (i n : String) (P : Benefit → Prop)
    (hP : ∀ t : PlanTier, P { item_id := i, item_name := n, quantity := jsTrim (row.getD t.index "") })
    (acc : List (String × Plan)) (jt : Nat × PlanTier)
    (hinv : ∀ p ∈ acc, ∀ b ∈ p.2.benefits, P b) :
    ∀ p ∈ tierStep row i n acc jt, ∀ b ∈ p.2.benefits, P b := by
  intro p hp b hb
  unfold tierStep at hp
  rcases hkk : (acc.map Prod.fst)[jt.1]? with _ | pid
  · rw [hkk] at hp
    exact hinv p hp b hb
  · rw [hkk] at hp
    rcases pushBenefit_benefit_mem _ _ _ p hp b hb with rfl | ⟨p0, hp0, hbp0⟩
    · exact hP jt.2
    · exact hinv p0 hp0 b hbp0

/-- ... and by the whole tier loop. -/
lemma tierFold_inv (row : List String) (i n : String) (P : Benefit → Prop)
    (hP : ∀ t : PlanTier, P { item_id := i, item_name := n, quantity := jsTrim (row.getD t.index "") }) :
    ∀ (l : List (Nat × PlanTier)) (acc : List (String × Plan)),
      (∀ p ∈ acc, ∀ b ∈ p.2.benefits, P b) →
      ∀ p ∈ l.foldl (tierStep row i n) acc, ∀ b ∈ p.2.benefits, P b := by
  intro l
  induction l with
  | nil => intro acc h; exact h
  | cons jt l ih =>
    intro acc h
    exact ih _ (tierStep_inv row i n P hP acc jt h)

/-- A kept row's lead name is a known item name or fails the
category-header pattern. -/
lemma rowKept_benefitOk (nameMap : List (String × String)) (row : List String)
    (hk : rowKept nameMap row = true) :
    ¬ (nameMap.lookup (leadName row) = none
        ∧ matchesCategoryPattern (leadName row) = true) := by
  rintro ⟨h1, h2⟩
  simp only [rowKept] at hk
  by_cases hl : leadName row = ""
  · rw [if_pos hl] at hk
    cases hk
  · rw [if_neg hl, h1] at hk
    simp [h2] at hk

/-- Benefits surviving a benefit row satisfy the well-formedness the
skip checks enforce. -/
lemma addRowBenefits_inv (tiers : List PlanTier) (nameMap : List (String × String))
    (plans : List (String × Plan)) (row : List String)
    (hinv : ∀ p ∈ plans, ∀ b ∈ p.2.benefits,
      ¬ (nameMap.lookup b.item_name = none ∧ matchesCategoryPattern b.item_name = true)) :
    ∀ p ∈ addRowBenefits tiers nameMap plans row, ∀ b ∈ p.2.benefits,
      ¬ (nameMap.lookup b.item_name = none ∧ matchesCategoryPattern b.item_name = true) := by
  unfold addRowBenefits
  split
  · rename_i hkept
    exact tierFold_inv row _ _ _ (fun t => rowKept_benefitOk nameMap row hkept)
      tiers.enum plans hinv
  · exact hinv

/-- ... across the whole benefit-row loop. -/
lemma rowsFold_inv (tiers : List PlanTier) (nameMap : List (String × String)) :
    ∀ (rows : List (List String)) (plans : List (String × Plan)),
      (∀ p ∈ plans, ∀ b ∈ p.2.benefits,
        ¬ (nameMap.lookup b.item_name = none ∧ matchesCategoryPattern b.item_name = true)) →
      ∀ p ∈ rows.foldl (addRowBenefits tiers nameMap) plans, ∀ b ∈ p.2.benefits,
        ¬ (nameMap.lookup b.item_name = none ∧ matchesCategoryPattern b.item_name = true) := by
  intro rows
  induction rows with
  | nil => intro plans h; exact h
  | cons row rows ih =>
    intro plans h
    exact ih _ (addRowBenefits_inv tiers nameMap plans row h)

/-- Name-map keys are the truthy display names, never empty. -/
lemma nameFold_keys_ne : ∀ (d : List (String × Item)) (acc : List (String × String)),
    (∀ q ∈ acc, q.1 ≠ "") → ∀ q ∈ d.foldl nameStep acc, q.1 ≠ "" := by
  intro d
  induction d with
  | nil => intro acc h; exact h
  | cons p ps ih =>
    intro acc h
    refine ih _ ?_
    intro q hq
    unfold nameStep at hq
    split at hq
    · rename_i hname
      rcases objInsert_mem_pairs _ _ _ q hq with rfl | hmem
      · exact hname
      · exact h q hmem
    · exact h q hq

/-- C6: no plan of a successful build ever carries a benefit whose
item name is both absent from the item-name map and matching the
category-header pattern (such rows are skipped as section headers);
and a row whose lead name resolves in the item-name map is kept as a
benefit row, pattern or not. -/
theorem processPlanData_category_header_filter :
    (∀ (itemsData : List (String × Item)) (planSheet : List (List String))
        (plans : List (String × Plan)) (p : String × Plan) (b : Benefit),
        processPlanData planSheet itemsData = .ok plans → p ∈ plans → b ∈ p.2.benefits →
        ¬ ((itemNameToId itemsData).lookup b.item_name = none
            ∧ matchesCategoryPattern b.item_name = true))
  ∧ (∀ (itemsData : List (String × Item)) (row : List String) (id : String),
        (itemNameToId itemsData).lookup (leadName row) = some id →
        rowKept (itemNameToId itemsData) row = true) := by
  constructor
  · intro itemsData planSheet plans p b hok hp hb
    match planSheet with
    | [] => simp [processPlanData] at hok
    | [headerRow] =>
      simp only [processPlanData] at hok
      split at hok
      · cases hok
        cases hp
      · cases hok
    | headerRow :: priceRow :: rows =>
      simp only [processPlanData, Except.ok.injEq] at hok
      subst hok
      refine rowsFold_inv _ (itemNameToId itemsData) rows (initPlans _) ?_ p hp b hb
      intro p0 hp0 b0 hb0
      have hnil := initPlans_benefits_nil _ [] (by intro x hx; cases hx) p0 hp0
      rw [hnil] at hb0
      cases hb0
  · intro itemsData row id hl
    have hkey : leadName row ≠ "" := by
      have hmem := lookup_mem _ _ _ hl
      exact nameFold_keys_ne itemsData [] (by intro q h; cases h) _ hmem
    simp only [rowKept]
    rw [if_neg hkey, hl]
    rfl

/-! ## The worked example of the spec (claims C1, and witnesses for
C6 and C7) -/

/-- The catalog item the example maps to code 7. -/
def exItem : Item :=
  { name := "活動入場", quantity := "", global_description_zh := ""
  , global_description_en := "", talent_recruitment_zh := "", talent_recruitment_en := ""
  , brand_exposure_zh := "", brand_exposure_en := "", product_promotion_zh := ""
  , product_promotion_en := "", image := "", image_description_zh := ""
  , image_description_en := "", price := "", deadline := ""
  , talent_recruitment_order := 0, brand_exposure_order := 0, product_promotion_order := 0
  , sub := [] }

def exItemsData : List (String × Item) := [("7", exItem)]

/-- A second catalog with an item whose display name matches the
category-header pattern. -/
def exItemB : Item := { exItem with name := "品牌曝光" }

def exItemsData2 : List (String × Item) := [("7", exItem), ("8", exItemB)]

/-- The sponsorship tab exactly as the worked example writes it: the
benefit row holds the item name in its third column and leaves the
lead column blank. -/
def exPlanSheet : List (List String) :=
  [["", "價格", "領航級", "深耕級"],
   ["", "", "$100000", "$50000"],
   ["", "", "活動入場", "2", "1"]]

/-- The same tab with the benefit row's item name in the lead column,
which is where the builder reads it. -/
def exPlanSheetFixed : List (List String) :=
  [["", "價格", "領航級", "深耕級"],
   ["", "", "$100000", "$50000"],
   ["活動入場", "", "2", "1"]]

def exNavigatorEmpty : Plan :=
  { id := "navigator", name_zh := "領航級", name_en := "Navigator Tier"
  , price := "$100000", order := 1, benefits := [] }

def exDeepEmpty : Plan :=
  { id := "deep_cultivation", name_zh := "深耕級", name_en := "Deep Cultivation Tier"
  , price := "$50000", order := 2, benefits := [] }

def exNavigatorOne : Plan :=
  { exNavigatorEmpty with benefits :=
      [{ item_id := "7", item_name := "活動入場", quantity := "2" }] }

def exDeepOne : Plan :=
  { exDeepEmpty with benefits :=
      [{ item_id := "7", item_name := "活動入場", quantity := "1" }] }

/-- C1 counterexample: on the benefit row exactly as the worked
example writes it, the lead column is blank, the row is skipped, and
both plans are produced with no benefits at all — not with one
benefit each. -/
theorem processPlanData_worked_example_counterexample :
    processPlanData exPlanSheet exItemsData =
      .ok [("navigator", exNavigatorEmpty), ("deep_cultivation", exDeepEmpty)] := by
  rfl

/-- C1 amended: with the benefit row's item name in the lead column —
the column the builder reads — the example behaves as claimed: two
plans, navigator and deep_cultivation, each with exactly one benefit
for item 7, with quantities 2 and 1 respectively. -/
theorem processPlanData_worked_example_amended :
    processPlanData exPlanSheetFixed exItemsData =
      .ok [("navigator", exNavigatorOne), ("deep_cultivation", exDeepOne)] := by
  rfl

/-- C7 witness: on the concrete example, the navigator plan holds
exactly one benefit per kept row. -/
theorem processPlanData_benefit_cardinality_witness :
    exNavigatorOne.benefits.length =
      (exPlanSheetFixed.drop 2).countP (rowKept (itemNameToId exItemsData)) :=
  processPlanData_benefit_cardinality exPlanSheetFixed exItemsData
    [("navigator", exNavigatorOne), ("deep_cultivation", exDeepOne)] (by rfl)
    ("navigator", exNavigatorOne) (by decide)

/-- C6 witness: the one benefit of the concrete build is a known item
name, and a row led by a known name that matches the category pattern
is still kept. -/
theorem processPlanData_category_header_filter_witness :
    ¬ ((itemNameToId exItemsData).lookup "活動入場" = none
        ∧ matchesCategoryPattern "活動入場" = true)
  ∧ rowKept (itemNameToId exItemsData2) ["品牌曝光"] = true :=
  ⟨processPlanData_category_header_filter.1 exItemsData exPlanSheetFixed
      [("navigator", exNavigatorOne), ("deep_cultivation", exDeepOne)]
      ("navigator", exNavigatorOne) { item_id := "7", item_name := "活動入場", quantity := "2" }
      (by rfl) (by decide) (by decide),
   processPlanData_category_header_filter.2 exItemsData2 ["品牌曝光"] "8" (by decide)⟩

end CFS
